import Mathlib

/-!
A shallow embedding of `pageserver/src/layered_repository/snapshot_layer.rs`
(the immutable snapshot layer of the zenith page server) together with the
file-name codec and directory-scan helpers it defines.

Modelling conventions:
* Rust `u32`/`u8`/`u64` values are `Nat`; width bounds appear as explicit
  hypotheses where a claim depends on them.
* `Lsn` (a `u64` newtype) is `Nat`.
* `Bytes` is `List Nat`.
* A `BTreeMap` is a list of key/value pairs; the map is sorted in strictly
  increasing key order when it models an actual `BTreeMap`, and the range
  scans below are stated against that order.
* Fallible Rust code returning `anyhow::Result` returns `Except SnapErr`,
  with one error constructor per `bail!` site; `panic!` sites are modelled
  by the dedicated `CallOutcome.aborted` value.
* Log output that the claims mention (`warn!`) is reified in the result of
  `get_page_at_lsn` as a list of `Warn` values.
-/

namespace Zenith

/-- Relation tag, from `repository.rs` usage in the source file:
spcnode, dbnode, relnode are u32, forknum is u8. -/
structure RelTag where
  spcnode : Nat
  dbnode : Nat
  relnode : Nat
  forknum : Nat
deriving DecidableEq

/-- Modelled from the spec: a WAL record is "an opaque byte payload plus a
boolean flag indicating whether replaying it fully initializes the page"
(`WALRecord` lives in `repository.rs`, which is not part of the sources). -/
structure WALRecord where
  will_init : Bool
  /-- the opaque payload (the field is called `rec` in the source; that name
  collides with the auto-generated recursor in Lean) -/
  recData : List Nat
deriving DecidableEq

/-- Modelled from the spec: a page version is "one of two mutually exclusive
variants ...: a full page image ..., or a WAL record"; the source accesses the
two `Option` fields `page_image` and `record` of `storage_layer::PageVersion`
(that file is not part of the sources). An entry with both set to `none` is
the corrupt case the scan must reject. -/
structure PageVersion where
  page_image : Option (List Nat)
  record : Option WALRecord
deriving DecidableEq

/-- Error values, one per `bail!` / failure site of the source file. -/
inductive SnapErr where
  /-- "no page image or WAL record for requested page" -/
  | corruptPage
  /-- "No base image found for page ..." -/
  | noBaseImage
  /-- "No size found for relfile ... in memory" -/
  | noSizeKnown
  /-- "cannot modify historical snapshot file" (put_truncation) -/
  | cannotModify
  /-- "cannot freeze historical snapshot file" (freeze) -/
  | cannotFreeze
  /-- a file expected on disk was absent (std::fs::read failure) -/
  | ioMissing
  /-- deserialization failure (BTreeMap::des failure) -/
  | badEncoding
deriving DecidableEq

/-- The `warn!` sites of `get_page_at_lsn`. -/
inductive Warn where
  /-- "Page ... not found" (lines 154 and 179) -/
  | pageNotFound
  /-- "Base image for page ... not found, but got ... WAL records" (line 189) -/
  | missingBaseImage
deriving DecidableEq

/-- Modelled from the spec: `PageServerConf` (not among the sources) is the
caller-supplied configuration, "opaque values" to this core; only its
timeline-directory location is ever consulted, and never by the read path. -/
structure PageServerConf where
  workdir : List Char
deriving DecidableEq

/-- In-memory form of one snapshot file, `struct SnapshotLayer`.
The two `Mutex`es around the maps are dropped: the embedding is sequential,
and the source never mutates either map after construction. -/
structure SnapshotLayer where
  conf : PageServerConf
  timelineid : Nat
  tag : RelTag
  start_lsn : Nat
  end_lsn : Nat
  page_versions : List ((Nat × Nat) × PageVersion)
  relsizes : List (Nat × Nat)
deriving DecidableEq

/-- `static ZERO_PAGE: Bytes = Bytes::from_static(&[0u8; 8192])`. -/
def ZERO_PAGE : List Nat := List.replicate 8192 0

/-! ## Decimal and hexadecimal text codec

`path_for` prints the four tag fields with `{}` (decimal) and the two LSNs
with `{:016X}`; `fname_to_tag` parses them back with `str::parse::<u32>` /
`parse::<u8>` and `Lsn::from_hex` (`u64::from_str_radix(_, 16)`). -/

/-- The character of one decimal digit. -/
def digitChar (d : Nat) : Char := Char.ofNat (48 + d)

/-- The character of one hexadecimal digit, uppercase as `{:X}` prints it. -/
def hexChar (d : Nat) : Char :=
  if d < 10 then Char.ofNat (48 + d) else Char.ofNat (55 + d)

/-- Decimal rendering of a Nat, as Rust `format!("{}", n)` renders a u32. -/
def decChars (n : Nat) : List Char :=
  if n = 0 then ['0'] else ((Nat.digits 10 n).map digitChar).reverse

/-- `{:016X}`: big-endian uppercase hex, zero-padded on the left to 16
characters. -/
def hex16 (n : Nat) : List Char :=
  List.replicate (16 - (Nat.digits 16 n).length) '0'
    ++ ((Nat.digits 16 n).map hexChar).reverse

/-- Numeric value of a decimal digit character. -/
def decVal (c : Char) : Nat := c.toNat - 48

/-- `str::parse` for an unsigned integer: all characters must be ASCII
digits and there must be at least one. (Accumulates most-significant
first.) -/
def parseDec (l : List Char) : Option Nat :=
  if l.isEmpty then none
  else if l.all Char.isDigit then
    some (l.foldl (fun a c => 10 * a + decVal c) 0)
  else none

/-- `str::parse::<u32>`: decimal parse plus the u32 range check. -/
def parseU32 (l : List Char) : Option Nat :=
  match parseDec l with
  | some n => if n < 4294967296 then some n else none
  | none => none

/-- `str::parse::<u8>`: decimal parse plus the u8 range check. -/
def parseU8 (l : List Char) : Option Nat :=
  match parseDec l with
  | some n => if n < 256 then some n else none
  | none => none

/-- Value of one hexadecimal digit character, either case. -/
def hexVal (c : Char) : Option Nat :=
  if 48 ≤ c.toNat ∧ c.toNat ≤ 57 then some (c.toNat - 48)
  else if 65 ≤ c.toNat ∧ c.toNat ≤ 70 then some (c.toNat - 55)
  else if 97 ≤ c.toNat ∧ c.toNat ≤ 102 then some (c.toNat - 87)
  else none

/-- Accumulating hexadecimal parse; fails on a non-hex character. -/
def parseHexAcc (a : Nat) : List Char → Option Nat
  | [] => some a
  | c :: rest =>
    match hexVal c with
    | some v => parseHexAcc (16 * a + v) rest
    | none => none

/-- Modelled from the spec: `Lsn::from_hex` (in `zenith_utils`, not among the
sources) -- "hexadecimal text encoding for file names" of a 64-bit LSN,
i.e. `u64::from_str_radix(s, 16)`: nonempty, all hex digits, u64 range. -/
def parseHex64 (l : List Char) : Option Nat :=
  if l.isEmpty then none
  else
    match parseHexAcc 0 l with
    | some v => if v < 18446744073709551616 then some v else none
    | none => none

/-! ## File names -/

/-- The file-name format of `path_for`:
`{spc}_{db}_{rel}_{fork}_{start:016X}_{end:016X}` (the timeline directory
prefix that `path_for` prepends addresses the directory modelled by `FS`
below and carries no information about the unit itself). -/
def snapFileName (tag : RelTag) (start_lsn end_lsn : Nat) : List Char :=
  decChars tag.spcnode ++ '_' :: (decChars tag.dbnode
    ++ '_' :: (decChars tag.relnode ++ '_' :: (decChars tag.forknum
    ++ '_' :: (hex16 start_lsn ++ '_' :: hex16 end_lsn))))

/-- `relsizes_path`: the companion file appends "_relsizes" to the name. -/
def relsizesName (f : List Char) : List Char :=
  f ++ ['_', 'r', 'e', 'l', 's', 'i', 'z', 'e', 's']

/-- `str::split('_')`: splitting the empty string yields one empty part,
and separators at the ends yield empty parts. -/
def splitU : List Char → List (List Char)
  | [] => [[]]
  | c :: rest =>
    if c = '_' then [] :: splitU rest
    else
      match splitU rest with
      | [] => [[c]]
      | g :: gs => (c :: g) :: gs

/-- `fname_to_tag`: take the first six underscore-separated fields (the
source never checks that the iterator is exhausted, so further fields are
ignored), parse four decimal numbers and two hex LSNs, and return `none` if
any of the six is missing or malformed. -/
def fname_to_tag (f : List Char) : Option (RelTag × Nat × Nat) :=
  match splitU f with
  | spc :: db :: rel :: fork :: s :: e :: _ =>
    match parseU32 spc, parseU32 db, parseU32 rel, parseU8 fork,
        parseHex64 s, parseHex64 e with
    | some a, some b, some c, some d, some sl, some el =>
      some (⟨a, b, c, d⟩, sl, el)
    | _, _, _, _, _, _ => none
  | _ => none


/-! ## Page reconstruction (`get_page_at_lsn`) -/

/-- The external WAL-redo executor, `WalRedoManager::request_redo`:
`(tag, blknum, lsn, optional base image, records oldest first)` to an image
or an error. Opaque to this core. -/
def RedoFn : Type :=
  RelTag → Nat → Nat → Option (List Nat) → List WALRecord →
    Except SnapErr (List Nat)

/-- The entries of `page_versions.range((Included(blknum, Lsn(0)),
Included(blknum, lsn)))`, in ascending key order: a `BTreeMap` modelled as a
key-sorted list yields exactly the entries whose key lies in the inclusive
range, in list order. -/
def rangeSlice (pvs : List ((Nat × Nat) × PageVersion)) (blknum lsn : Nat) :
    List ((Nat × Nat) × PageVersion) :=
  pvs.filter (fun e => decide (e.1.1 = blknum ∧ e.1.2 ≤ lsn))

/-- The `while let Some(..) = iter.next_back()` loop of `get_page_at_lsn`,
taking the range entries newest first. Returns (records in push order
(newest first), page_img, need_base_image_lsn); `lsn0` is the value
`need_base_image_lsn` holds when the loop starts (`Some(lsn)` at the call
site, updated to `Some(entry_lsn)` after each non-initializing record). -/
def scanLoop (lsn0 : Nat) :
    List ((Nat × Nat) × PageVersion) →
      Except SnapErr (List WALRecord × Option (List Nat) × Option Nat)
  | [] => .ok ([], none, some lsn0)
  | e :: rest =>
    match e.2.page_image with
    | some img => .ok ([], some img, none)
    | none =>
      match e.2.record with
      | some rec =>
        if rec.will_init then .ok ([rec], none, none)
        else
          match scanLoop e.1.2 rest with
          | .error err => .error err
          | .ok (recs, img, nb) => .ok (rec :: recs, img, nb)
      | none => .error .corruptPage

/-- `get_page_at_lsn`: scan backward, reverse the collected records, then
resolve. The successful result carries the emitted `warn!` messages next to
the returned image (`[]` when nothing was logged). -/
def get_page_at_lsn (s : SnapshotLayer) (walredo_mgr : RedoFn)
    (blknum lsn : Nat) : Except SnapErr (List Warn × List Nat) :=
  match scanLoop lsn ((rangeSlice s.page_versions blknum lsn).reverse) with
  | .error err => .error err
  | .ok (recsPushOrder, page_img, need_base_image_lsn) =>
    let records := recsPushOrder.reverse
    match need_base_image_lsn with
    | some _ =>
      if records.isEmpty then .ok ([.pageNotFound], ZERO_PAGE)
      else .error .noBaseImage
    | none =>
      match records with
      | [] =>
        match page_img with
        | some img => .ok ([], img)
        | none => .ok ([.pageNotFound], ZERO_PAGE)
      | r :: _ =>
        if page_img.isNone && !r.will_init then
          .ok ([.missingBaseImage], ZERO_PAGE)
        else
          match walredo_mgr s.tag blknum lsn page_img records with
          | .error err => .error err
          | .ok img => .ok ([], img)

/-- An entry the backward scan walks past without stopping: per the claim,
a WAL record whose will-init flag is not set. (An image stops the scan, a
will-init record stops it, an empty entry fails it.) -/
def isPendingRecordEntry (e : (Nat × Nat) × PageVersion) : Bool :=
  match e.2.page_image, e.2.record with
  | none, some r => !r.will_init
  | _, _ => false

/-- The page-reconstruction procedure as the claim states it, stated over
the same backward-ordered range of version-history entries: the pending-redo
list is the longest backward run of non-initializing records; the entry the
scan stops at (if any) supplies the base image, or is a will-init record
(executor invoked without base image and without error), or is corrupt;
records reach the executor oldest first. -/
def getPageAtLsnClaim (s : SnapshotLayer) (walredo_mgr : RedoFn)
    (blknum lsn : Nat) : Except SnapErr (List Warn × List Nat) :=
  let desc := (rangeSlice s.page_versions blknum lsn).reverse
  let pending := desc.takeWhile isPendingRecordEntry
  let recs := (pending.filterMap (fun e => e.2.record)).reverse
  match desc.dropWhile isPendingRecordEntry with
  | [] =>
    if pending.isEmpty then .ok ([.pageNotFound], ZERO_PAGE)
    else .error .noBaseImage
  | e :: _ =>
    match e.2.page_image with
    | some img =>
      if pending.isEmpty then .ok ([], img)
      else
        match walredo_mgr s.tag blknum lsn (some img) recs with
        | .error err => .error err
        | .ok img2 => .ok ([], img2)
    | none =>
      match e.2.record with
      | some r =>
        match walredo_mgr s.tag blknum lsn none (r :: recs) with
        | .error err => .error err
        | .ok img2 => .ok ([], img2)
      | none => .error .corruptPage

/-- The value `need_base_image_lsn` carries when the scan exhausts the range
without stopping (used only inside the log message). -/
def lastLsnAux (lsn0 : Nat) : List ((Nat × Nat) × PageVersion) → Nat
  | [] => lsn0
  | e :: rest => lastLsnAux e.1.2 rest

/-! ## Size and existence queries -/

/-- `get_rel_size`: `relsizes.range((Included(Lsn(0)), Included(lsn)))
.next_back()` -- on the sorted-list model, the last entry with key at most
`lsn` (every `Nat` key is at least `Lsn(0)`). -/
def get_rel_size (s : SnapshotLayer) (lsn : Nat) : Except SnapErr Nat :=
  match (s.relsizes.filter (fun e => decide (e.1 ≤ lsn))).getLast? with
  | some e => .ok e.2
  | none => .error .noSizeKnown

/-- `get_rel_exists`: the same backward lookup; `Ok(true)` exactly when an
entry at or before `lsn` exists. Never an error. -/
def get_rel_exists (s : SnapshotLayer) (lsn : Nat) : Except SnapErr Bool :=
  .ok (match (s.relsizes.filter (fun e => decide (e.1 ≤ lsn))).getLast? with
       | some _ => true
       | none => false)

/-! ## Mutation stubs and the frozen flag -/

/-- Outcome of calling an operation that may terminate the process:
`aborted` models `panic!` (the call never returns), `returned r` models a
normal return of `r`. Mutators also pass the (unchanged) layer back so that
the absence of state change is a stated fact rather than a convention. -/
inductive CallOutcome (α : Type) where
  | aborted
  | returned (r : Except SnapErr α)

/-- `put_page_version`: `panic!("cannot modify historical snapshot file, ...")`
unconditionally. -/
def put_page_version (s : SnapshotLayer) (_blknum _lsn : Nat)
    (_pv : PageVersion) : SnapshotLayer × CallOutcome Unit :=
  (s, .aborted)

/-- `put_truncation`: `bail!("cannot modify historical snapshot file")`. -/
def put_truncation (s : SnapshotLayer) (_lsn _relsize : Nat) :
    SnapshotLayer × CallOutcome Unit :=
  (s, .returned (.error .cannotModify))

/-- `freeze`: `bail!("cannot freeze historical snapshot file")`. -/
def freeze (s : SnapshotLayer) (_end_lsn : Nat) :
    SnapshotLayer × CallOutcome Unit :=
  (s, .returned (.error .cannotFreeze))

/-- `is_frozen`: always true for a snapshot layer. -/
def is_frozen (_s : SnapshotLayer) : Bool := true


/-! ## Directory scans -/

/-- The `for direntry in fs::read_dir(path)` accumulation loop of
`find_latest_snapshot_file`: `(result_start_lsn, result_end_lsn)` start at
`(Lsn(0), Lsn(0))` and are replaced whenever a decodable name matches the tag
with `start_lsn <= lsn` and `start_lsn > result_start_lsn`. -/
def flsfLoop (tag : RelTag) (lsn : Nat) :
    List (List Char) → Nat × Nat → Nat × Nat
  | [], acc => acc
  | fname :: rest, acc =>
    match fname_to_tag fname with
    | some (reltag, start_lsn, end_lsn) =>
      if reltag = tag ∧ start_lsn ≤ lsn ∧ acc.1 < start_lsn then
        flsfLoop tag lsn rest (start_lsn, end_lsn)
      else
        flsfLoop tag lsn rest acc
    | none => flsfLoop tag lsn rest acc

/-- `find_latest_snapshot_file`, over the list of file names in the timeline
directory: the winner, or `None` when `result_start_lsn` is still `Lsn(0)`. -/
def find_latest_snapshot_file (dir : List (List Char)) (tag : RelTag)
    (lsn : Nat) : Option (Nat × Nat) :=
  let r := flsfLoop tag lsn dir (0, 0)
  if r.1 ≠ 0 then some r else none

/-- `list_rels`: collect the distinct decodable relation tags matching the
space/database filters (0 means any). -/
def list_rels (dir : List (List Char)) (spcnode dbnode : Nat) :
    Finset RelTag :=
  dir.foldl
    (fun rels fname =>
      match fname_to_tag fname with
      | some (reltag, _start_lsn, _end_lsn) =>
        if (spcnode = 0 ∨ reltag.spcnode = spcnode)
            ∧ (dbnode = 0 ∨ reltag.dbnode = dbnode) then
          insert reltag rels
        else rels
      | none => rels)
    ∅

/-! ## Persistence

The timeline directory is modelled as an association list from file name to
file content; `fsWrite` overwrites as `File::create` does. The binary codec
itself is *modelled from the spec*: `BeSer` / `bin_ser` live in
`zenith_utils`, not among the sources; per spec section 4.2 it is "a
deterministic binary encoding capable of exact round-trip (ordered-mapping
structure, keys and values as fixed/variable-width binary fields)". Each
field below is one element of the output list; lists are length-prefixed. -/

def FS : Type := List (List Char × List Nat)

/-- Write (create or overwrite) one file. -/
def fsWrite : FS → List Char → List Nat → FS
  | [], k, v => [(k, v)]
  | (k', v') :: rest, k, v =>
    if k' = k then (k, v) :: rest else (k', v') :: fsWrite rest k v

/-- Read one file (`std::fs::read`): `none` models the io error. -/
def fsRead : FS → List Char → Option (List Nat)
  | [], _ => none
  | (k', v') :: rest, k => if k' = k then some v' else fsRead rest k

/-- Modelled from the spec: serialize one byte string, length-prefixed. -/
def serBytes (b : List Nat) : List Nat := b.length :: b

/-- Modelled from the spec: serialize an `Option`, one tag field then the
payload. -/
def serOpt (f : α → List Nat) : Option α → List Nat
  | none => [0]
  | some x => 1 :: f x

/-- Modelled from the spec: serialize a WAL record (flag field, payload). -/
def serRec (r : WALRecord) : List Nat :=
  (if r.will_init then 1 else 0) :: serBytes r.recData

/-- Modelled from the spec: serialize one version-history entry: the
`(block, LSN)` key fields then the image-or-record tagged union. -/
def serEntry (e : (Nat × Nat) × PageVersion) : List Nat :=
  e.1.1 :: e.1.2 :: (serOpt serBytes e.2.page_image ++ serOpt serRec e.2.record)

/-- Modelled from the spec: `BTreeMap::ser` for the version history:
length-prefixed ordered sequence of entries. -/
def serPVMap (m : List ((Nat × Nat) × PageVersion)) : List Nat :=
  m.length :: m.flatMap serEntry

/-- Modelled from the spec: `BTreeMap::ser` for the size history. -/
def serRSMap (m : List (Nat × Nat)) : List Nat :=
  m.length :: m.flatMap (fun e => [e.1, e.2])

/-- Deserialize one byte string; returns the value and the remaining input. -/
def desBytes : List Nat → Option (List Nat × List Nat)
  | [] => none
  | n :: rest =>
    if n ≤ rest.length then some (rest.take n, rest.drop n) else none

/-- Deserialize an `Option`. -/
def desOpt (f : List Nat → Option (α × List Nat)) :
    List Nat → Option (Option α × List Nat)
  | [] => none
  | t :: rest =>
    if t = 0 then some (none, rest)
    else if t = 1 then
      match f rest with
      | some (x, rest') => some (some x, rest')
      | none => none
    else none

/-- Deserialize a WAL record. -/
def desRec (l : List Nat) : Option (WALRecord × List Nat) :=
  match l with
  | [] => none
  | t :: rest =>
    if t = 0 ∨ t = 1 then
      match desBytes rest with
      | some (b, rest') => some (⟨t = 1, b⟩, rest')
      | none => none
    else none

/-- Deserialize one version-history entry. -/
def desEntry (l : List Nat) : Option (((Nat × Nat) × PageVersion) × List Nat) :=
  match l with
  | blknum :: lsn :: rest =>
    match desOpt (fun r => desBytes r) rest with
    | some (img, rest') =>
      match desOpt desRec rest' with
      | some (r, rest'') => some (((blknum, lsn), ⟨img, r⟩), rest'')
      | none => none
    | none => none
  | _ => none

/-- Deserialize `n` version-history entries. -/
def desEntries : Nat → List Nat →
    Option (List ((Nat × Nat) × PageVersion) × List Nat)
  | 0, l => some ([], l)
  | n + 1, l =>
    match desEntry l with
    | some (e, l') =>
      match desEntries n l' with
      | some (es, l'') => some (e :: es, l'')
      | none => none
    | none => none

/-- `BTreeMap::des` for the version history; trailing bytes are an encoding
error. -/
def desPVMap (l : List Nat) : Option (List ((Nat × Nat) × PageVersion)) :=
  match l with
  | n :: rest =>
    match desEntries n rest with
    | some (es, []) => some es
    | _ => none
  | [] => none

/-- Deserialize `n` size-history entries. -/
def desSizes : Nat → List Nat → Option (List (Nat × Nat) × List Nat)
  | 0, l => some ([], l)
  | n + 1, l =>
    match l with
    | k :: v :: rest =>
      match desSizes n rest with
      | some (es, rest') => some ((k, v) :: es, rest')
      | none => none
    | _ => none

/-- `BTreeMap::des` for the size history. -/
def desRSMap (l : List Nat) : Option (List (Nat × Nat)) :=
  match l with
  | n :: rest =>
    match desSizes n rest with
    | some (es, []) => some es
    | _ => none
  | [] => none

/-- `save`: write the version-history file, then the size-history companion
(overwriting whatever was there). -/
def save (s : SnapshotLayer) (fs : FS) : FS :=
  let p := snapFileName s.tag s.start_lsn s.end_lsn
  fsWrite (fsWrite fs p (serPVMap s.page_versions))
    (relsizesName p) (serRSMap s.relsizes)

/-- `create`: build the layer in memory and persist both files at once. -/
def create (conf : PageServerConf) (timelineid : Nat) (tag : RelTag)
    (start_lsn end_lsn : Nat)
    (page_versions : List ((Nat × Nat) × PageVersion))
    (relsizes : List (Nat × Nat)) (fs : FS) : SnapshotLayer × FS :=
  let snapfile : SnapshotLayer :=
    ⟨conf, timelineid, tag, start_lsn, end_lsn, page_versions, relsizes⟩
  (snapfile, save snapfile fs)

/-- `load_path`: read and deserialize both companion files of one unit
identity. -/
def load_path (conf : PageServerConf) (timelineid : Nat) (tag : RelTag)
    (start_lsn end_lsn : Nat) (fs : FS) : Except SnapErr SnapshotLayer :=
  let p := snapFileName tag start_lsn end_lsn
  match fsRead fs p with
  | none => .error .ioMissing
  | some content =>
    match desPVMap content with
    | none => .error .badEncoding
    | some page_versions =>
      match fsRead fs (relsizesName p) with
      | none => .error .ioMissing
      | some content2 =>
        match desRSMap content2 with
        | none => .error .badEncoding
        | some relsizes =>
          .ok ⟨conf, timelineid, tag, start_lsn, end_lsn, page_versions,
            relsizes⟩

/-- `load`: find the best unit for `(tag, lsn)` in the directory, then load
it; `Ok(None)` when no unit qualifies. -/
def load (conf : PageServerConf) (timelineid : Nat) (tag : RelTag) (lsn : Nat)
    (fs : FS) : Except SnapErr (Option SnapshotLayer) :=
  match find_latest_snapshot_file (fs.map Prod.fst) tag lsn with
  | some (start_lsn, end_lsn) =>
    match load_path conf timelineid tag start_lsn end_lsn fs with
    | .ok snap => .ok (some snap)
    | .error err => .error err
  | none => .ok none


/-! ## Codec round-trip lemmas -/

lemma digit_facts :
    ∀ d, d < 10 → decVal (digitChar d) = d ∧ (digitChar d).isDigit = true ∧
      digitChar d ≠ '_' := by decide

lemma hex_facts :
    ∀ d, d < 16 → hexVal (hexChar d) = some d ∧ hexChar d ≠ '_' := by decide

lemma foldDec (ds : List Nat) :
    ∀ a : Nat, (∀ d ∈ ds, d < 10) →
      ((ds.map digitChar).reverse).foldl (fun a c => 10 * a + decVal c) a
        = a * 10 ^ ds.length + Nat.ofDigits 10 ds := by
  induction ds with
  | nil => intro a _; simp
  | cons d t ih =>
    intro a h
    have hd : d < 10 := h d (by simp)
    have ht : ∀ x ∈ t, x < 10 := fun x hx => h x (by simp [hx])
    simp only [List.map_cons, List.reverse_cons, List.foldl_append, List.foldl_cons,
      List.foldl_nil]
    rw [ih a ht, (digit_facts d hd).1, Nat.ofDigits_cons, List.length_cons]
    ring

lemma parseDec_decChars (n : Nat) : parseDec (decChars n) = some n := by
  by_cases h0 : n = 0
  · subst h0; rfl
  · have hne : Nat.digits 10 n ≠ [] := Nat.digits_ne_nil_iff_ne_zero.mpr h0
    have hlt : ∀ d ∈ Nat.digits 10 n, d < 10 :=
      fun d hd => Nat.digits_lt_base (by norm_num) hd
    unfold decChars parseDec
    rw [if_neg h0]
    have hisEmpty : (((Nat.digits 10 n).map digitChar).reverse).isEmpty = false := by
      simp [List.isEmpty_iff, hne]
    rw [hisEmpty]
    have hall : (((Nat.digits 10 n).map digitChar).reverse).all Char.isDigit = true := by
      simp only [List.all_eq_true, List.mem_reverse, List.mem_map]
      rintro c ⟨d, hd, rfl⟩
      exact (digit_facts d (hlt d hd)).2.1
    rw [hall]
    simp only [if_true]
    rw [foldDec _ 0 hlt]
    simp [Nat.ofDigits_digits]

lemma parseHexAcc_append (xs ys : List Char) :
    ∀ a, parseHexAcc a (xs ++ ys)
      = match parseHexAcc a xs with
        | some b => parseHexAcc b ys
        | none => none := by
  induction xs with
  | nil => intro a; simp [parseHexAcc]
  | cons c t ih =>
    intro a
    simp only [List.cons_append, parseHexAcc]
    cases hexVal c with
    | none => rfl
    | some v => exact ih (16 * a + v)

lemma foldHex (ds : List Nat) :
    ∀ a : Nat, (∀ d ∈ ds, d < 16) →
      parseHexAcc a ((ds.map hexChar).reverse)
        = some (a * 16 ^ ds.length + Nat.ofDigits 16 ds) := by
  induction ds with
  | nil => intro a _; simp [parseHexAcc]
  | cons d t ih =>
    intro a h
    have hd : d < 16 := h d (by simp)
    have ht : ∀ x ∈ t, x < 16 := fun x hx => h x (by simp [hx])
    simp only [List.map_cons, List.reverse_cons]
    rw [parseHexAcc_append, ih a ht]
    simp only [parseHexAcc, (hex_facts d hd).1, Nat.ofDigits_cons, List.length_cons]
    congr 1
    ring

lemma parseHexAcc_zeros (k : Nat) :
    ∀ rest, parseHexAcc 0 (List.replicate k '0' ++ rest) = parseHexAcc 0 rest := by
  induction k with
  | zero => intro rest; rfl
  | succ m ih =>
    intro rest
    have h0 : hexVal '0' = some 0 := by decide
    simp only [List.replicate_succ, List.cons_append, parseHexAcc, h0]
    exact ih rest

lemma parseHex64_hex16 {n : Nat} (h : n < 18446744073709551616) :
    parseHex64 (hex16 n) = some n := by
  by_cases h0 : n = 0
  · subst h0
    have h16 : hex16 0 = List.replicate 16 '0' := by simp [hex16]
    rw [h16]
    decide
  · have hne : Nat.digits 16 n ≠ [] := Nat.digits_ne_nil_iff_ne_zero.mpr h0
    have hlt : ∀ d ∈ Nat.digits 16 n, d < 16 :=
      fun d hd => Nat.digits_lt_base (by norm_num) hd
    unfold parseHex64 hex16
    have hisEmpty :
        (List.replicate (16 - (Nat.digits 16 n).length) '0'
          ++ ((Nat.digits 16 n).map hexChar).reverse).isEmpty = false := by
      simp [List.isEmpty_iff, hne]
    rw [hisEmpty]
    rw [parseHexAcc_zeros, foldHex _ 0 hlt]
    simp [Nat.ofDigits_digits, h]

lemma parseU32_decChars {n : Nat} (h : n < 4294967296) :
    parseU32 (decChars n) = some n := by
  rw [parseU32, parseDec_decChars]
  simp [h]

lemma parseU8_decChars {n : Nat} (h : n < 256) :
    parseU8 (decChars n) = some n := by
  rw [parseU8, parseDec_decChars]
  simp [h]

lemma underscore_not_mem_decChars (n : Nat) : '_' ∉ decChars n := by
  intro hmem
  unfold decChars at hmem
  by_cases h0 : n = 0
  · simp [h0] at hmem
  · rw [if_neg h0] at hmem
    simp only [List.mem_reverse, List.mem_map] at hmem
    obtain ⟨d, hd, hdc⟩ := hmem
    exact (digit_facts d (Nat.digits_lt_base (by norm_num) hd)).2.2 hdc

lemma underscore_not_mem_hex16 (n : Nat) : '_' ∉ hex16 n := by
  intro hmem
  unfold hex16 at hmem
  rw [List.mem_append] at hmem
  rcases hmem with hrep | hmap
  · exact absurd (List.eq_of_mem_replicate hrep) (by decide)
  · simp only [List.mem_reverse, List.mem_map] at hmap
    obtain ⟨d, hd, hdc⟩ := hmap
    exact (hex_facts d (Nat.digits_lt_base (by norm_num) hd)).2 hdc

lemma splitU_append (a : List Char) (rest : List Char) (h : '_' ∉ a) :
    splitU (a ++ '_' :: rest) = a :: splitU rest := by
  induction a with
  | nil => simp [splitU]
  | cons c t ih =>
    simp only [List.mem_cons, not_or] at h
    obtain ⟨hc, ht⟩ := h
    rw [List.cons_append]
    simp only [splitU, ih ht]
    rw [if_neg (fun hh : c = '_' => hc hh.symm)]

lemma splitU_single (l : List Char) (h : '_' ∉ l) : splitU l = [l] := by
  induction l with
  | nil => rfl
  | cons c t ih =>
    simp only [List.mem_cons, not_or] at h
    obtain ⟨hc, ht⟩ := h
    simp only [splitU, ih ht]
    rw [if_neg (fun hh : c = '_' => hc hh.symm)]

lemma splitU_snapFileName (tag : RelTag) (s e : Nat) :
    splitU (snapFileName tag s e)
      = [decChars tag.spcnode, decChars tag.dbnode, decChars tag.relnode,
         decChars tag.forknum, hex16 s, hex16 e] := by
  unfold snapFileName
  rw [splitU_append _ _ (underscore_not_mem_decChars _),
    splitU_append _ _ (underscore_not_mem_decChars _),
    splitU_append _ _ (underscore_not_mem_decChars _),
    splitU_append _ _ (underscore_not_mem_decChars _),
    splitU_append _ _ (underscore_not_mem_hex16 _),
    splitU_single _ (underscore_not_mem_hex16 _)]

lemma fname_to_tag_snapFileName (tag : RelTag) (s e : Nat)
    (h1 : tag.spcnode < 4294967296) (h2 : tag.dbnode < 4294967296)
    (h3 : tag.relnode < 4294967296) (h4 : tag.forknum < 256)
    (h5 : s < 18446744073709551616) (h6 : e < 18446744073709551616) :
    fname_to_tag (snapFileName tag s e) = some (tag, s, e) := by
  unfold fname_to_tag
  rw [splitU_snapFileName]
  simp only [parseU32_decChars h1, parseU32_decChars h2, parseU32_decChars h3,
    parseU8_decChars h4, parseHex64_hex16 h5, parseHex64_hex16 h6]

lemma splitU_relsizesName (tag : RelTag) (s e : Nat) :
    splitU (relsizesName (snapFileName tag s e))
      = [decChars tag.spcnode, decChars tag.dbnode, decChars tag.relnode,
         decChars tag.forknum, hex16 s, hex16 e,
         ['r', 'e', 'l', 's', 'i', 'z', 'e', 's']] := by
  unfold relsizesName snapFileName
  simp only [List.append_assoc, List.cons_append, List.nil_append]
  rw [splitU_append _ _ (underscore_not_mem_decChars _),
    splitU_append _ _ (underscore_not_mem_decChars _),
    splitU_append _ _ (underscore_not_mem_decChars _),
    splitU_append _ _ (underscore_not_mem_decChars _),
    splitU_append _ _ (underscore_not_mem_hex16 _),
    splitU_append _ _ (underscore_not_mem_hex16 _),
    splitU_single _ (by decide)]

lemma fname_to_tag_relsizesName (tag : RelTag) (s e : Nat)
    (h1 : tag.spcnode < 4294967296) (h2 : tag.dbnode < 4294967296)
    (h3 : tag.relnode < 4294967296) (h4 : tag.forknum < 256)
    (h5 : s < 18446744073709551616) (h6 : e < 18446744073709551616) :
    fname_to_tag (relsizesName (snapFileName tag s e)) = some (tag, s, e) := by
  unfold fname_to_tag
  rw [splitU_relsizesName]
  simp only [parseU32_decChars h1, parseU32_decChars h2, parseU32_decChars h3,
    parseU8_decChars h4, parseHex64_hex16 h5, parseHex64_hex16 h6]

/-! ## Backward-scan characterization -/

lemma pending_true_elim (e : (Nat × Nat) × PageVersion)
    (h : isPendingRecordEntry e = true) :
    e.2.page_image = none ∧ ∃ r, e.2.record = some r ∧ r.will_init = false := by
  unfold isPendingRecordEntry at h
  cases hpi : e.2.page_image <;> cases hrec : e.2.record <;>
    rw [hpi, hrec] at h <;> simp_all

lemma pending_false_of_dropWhile_cons {l tl : List ((Nat × Nat) × PageVersion)}
    {e : (Nat × Nat) × PageVersion}
    (h : l.dropWhile isPendingRecordEntry = e :: tl) :
    isPendingRecordEntry e = false := by
  induction l with
  | nil => simp at h
  | cons x rest ih =>
    rw [List.dropWhile_cons] at h
    by_cases hp : isPendingRecordEntry x = true
    · rw [if_pos hp] at h; exact ih h
    · rw [if_neg hp] at h
      cases h
      exact Bool.eq_false_iff.mpr hp

lemma scanLoop_exhausted (desc : List ((Nat × Nat) × PageVersion)) :
    ∀ lsn0, desc.dropWhile isPendingRecordEntry = [] →
      scanLoop lsn0 desc
        = .ok (desc.filterMap (fun e => e.2.record), none,
            some (lastLsnAux lsn0 desc)) := by
  induction desc with
  | nil => intro lsn0 _; rfl
  | cons e rest ih =>
    intro lsn0 h
    rw [List.dropWhile_cons] at h
    by_cases hp : isPendingRecordEntry e = true
    · rw [if_pos hp] at h
      obtain ⟨hpi, r, hrec, hwi⟩ := pending_true_elim e hp
      simp only [scanLoop, hpi, hrec, hwi, Bool.false_eq_true, if_false, ih e.1.2 h]
      simp [List.filterMap_cons, hrec, lastLsnAux]
    · rw [if_neg hp] at h; exact absurd h (by simp)

lemma scanLoop_stop_image (desc : List ((Nat × Nat) × PageVersion)) :
    ∀ lsn0 e tl img, desc.dropWhile isPendingRecordEntry = e :: tl →
      e.2.page_image = some img →
      scanLoop lsn0 desc
        = .ok ((desc.takeWhile isPendingRecordEntry).filterMap
            (fun x => x.2.record), some img, none) := by
  induction desc with
  | nil => intro lsn0 e tl img h _; simp at h
  | cons x rest ih =>
    intro lsn0 e tl img h himg
    rw [List.dropWhile_cons] at h
    by_cases hp : isPendingRecordEntry x = true
    · rw [if_pos hp] at h
      obtain ⟨hpi, r, hrec, hwi⟩ := pending_true_elim x hp
      simp only [scanLoop, hpi, hrec, hwi, Bool.false_eq_true, if_false,
        ih x.1.2 e tl img h himg]
      rw [List.takeWhile_cons_of_pos hp]
      simp [List.filterMap_cons, hrec]
    · rw [if_neg hp] at h
      cases h
      rw [List.takeWhile_cons_of_neg hp]
      simp [scanLoop, himg]

lemma scanLoop_stop_willInit (desc : List ((Nat × Nat) × PageVersion)) :
    ∀ lsn0 e tl r, desc.dropWhile isPendingRecordEntry = e :: tl →
      e.2.page_image = none → e.2.record = some r → r.will_init = true →
      scanLoop lsn0 desc
        = .ok ((desc.takeWhile isPendingRecordEntry).filterMap
            (fun x => x.2.record) ++ [r], none, none) := by
  induction desc with
  | nil => intro lsn0 e tl r h _ _ _; simp at h
  | cons x rest ih =>
    intro lsn0 e tl r h hpi hrec hwi
    rw [List.dropWhile_cons] at h
    by_cases hp : isPendingRecordEntry x = true
    · rw [if_pos hp] at h
      obtain ⟨hpi2, r2, hrec2, hwi2⟩ := pending_true_elim x hp
      simp only [scanLoop, hpi2, hrec2, hwi2, Bool.false_eq_true, if_false,
        ih x.1.2 e tl r h hpi hrec hwi]
      rw [List.takeWhile_cons_of_pos hp]
      simp [List.filterMap_cons, hrec2]
    · rw [if_neg hp] at h
      cases h
      rw [List.takeWhile_cons_of_neg hp]
      simp [scanLoop, hpi, hrec, hwi]

lemma scanLoop_stop_corrupt (desc : List ((Nat × Nat) × PageVersion)) :
    ∀ lsn0 e tl, desc.dropWhile isPendingRecordEntry = e :: tl →
      e.2.page_image = none → e.2.record = none →
      scanLoop lsn0 desc = .error .corruptPage := by
  induction desc with
  | nil => intro lsn0 e tl h _ _; simp at h
  | cons x rest ih =>
    intro lsn0 e tl h hpi hrec
    rw [List.dropWhile_cons] at h
    by_cases hp : isPendingRecordEntry x = true
    · rw [if_pos hp] at h
      obtain ⟨hpi2, r2, hrec2, hwi2⟩ := pending_true_elim x hp
      simp only [scanLoop, hpi2, hrec2, hwi2, Bool.false_eq_true, if_false,
        ih x.1.2 e tl h hpi hrec]
    · rw [if_neg hp] at h
      cases h
      simp [scanLoop, hpi, hrec]

lemma pending_filterMap_nil_iff (l : List ((Nat × Nat) × PageVersion))
    (h : ∀ e ∈ l, isPendingRecordEntry e = true) :
    l.filterMap (fun e => e.2.record) = [] ↔ l = [] := by
  cases l with
  | nil => simp
  | cons e t =>
    obtain ⟨hpi, r, hrec, hwi⟩ := pending_true_elim e (h e (by simp))
    simp [List.filterMap_cons, hrec]

/-- `get_page_at_lsn` computes exactly the claim-side procedure
`getPageAtLsnClaim` (shared helper; the page-reconstruction claims below
all reduce to this equality). -/
lemma get_page_eq_claimProcedure (s : SnapshotLayer) (walredo_mgr : RedoFn)
    (blknum lsn : Nat) :
    get_page_at_lsn s walredo_mgr blknum lsn
      = getPageAtLsnClaim s walredo_mgr blknum lsn := by
  unfold get_page_at_lsn getPageAtLsnClaim
  set desc := (rangeSlice s.page_versions blknum lsn).reverse with hdesc
  cases hdw : desc.dropWhile isPendingRecordEntry with
  | nil =>
    rw [scanLoop_exhausted desc lsn hdw]
    simp only [hdw]
    have hall : ∀ e ∈ desc, isPendingRecordEntry e = true :=
      List.dropWhile_eq_nil_iff.mp hdw
    by_cases hnil : desc = []
    · simp [hnil]
    · have htw : desc.takeWhile isPendingRecordEntry = desc := by
        have hh := List.takeWhile_append_dropWhile
          (p := isPendingRecordEntry) (l := desc)
        rw [hdw, List.append_nil] at hh
        exact hh
      rw [htw]
      have hfm : desc.filterMap (fun e => e.2.record) ≠ [] := by
        rw [ne_eq, pending_filterMap_nil_iff desc hall]
        exact hnil
      simp only [List.isEmpty_iff, List.reverse_eq_nil_iff]
      rw [if_neg hfm, if_neg hnil]
  | cons e tl =>
    have hpfalse := pending_false_of_dropWhile_cons hdw
    cases hpi : e.2.page_image with
    | some img =>
      rw [scanLoop_stop_image desc lsn e tl img hdw hpi]
      simp only [hdw, hpi]
      by_cases hpnil : desc.takeWhile isPendingRecordEntry = []
      · rw [hpnil]
        simp
      · have hall : ∀ x ∈ desc.takeWhile isPendingRecordEntry,
            isPendingRecordEntry x = true :=
          fun x hx => List.mem_takeWhile_imp hx
        have hfm : (desc.takeWhile isPendingRecordEntry).filterMap
            (fun x => x.2.record) ≠ [] := by
          rw [ne_eq, pending_filterMap_nil_iff _ hall]
          exact hpnil
        cases hrecs : ((desc.takeWhile isPendingRecordEntry).filterMap
            (fun x => x.2.record)).reverse with
        | nil => exact absurd (by simpa using hrecs) hfm
        | cons r rtl =>
          simp only [List.isEmpty_iff]
          rw [if_neg hpnil]
          simp
    | none =>
      cases hrec : e.2.record with
      | some r =>
        have hwi : r.will_init = true := by
          unfold isPendingRecordEntry at hpfalse
          rw [hpi, hrec] at hpfalse
          simpa using hpfalse
        rw [scanLoop_stop_willInit desc lsn e tl r hdw hpi hrec hwi]
        simp only [hdw, hpi, hrec]
        simp [List.reverse_append, hwi]
      | none =>
        rw [scanLoop_stop_corrupt desc lsn e tl hdw hpi hrec]
        simp only [hdw, hpi, hrec]

/-- C1: `get_page_at_lsn` scans the version-history entries with keys in the
inclusive range `(blknum, LSN 0)` to `(blknum, lsn)` backward from the
highest key; the first full image found becomes the base image and stops the
scan; each WAL record is appended to the pending-redo list, stopping exactly
when its will_init flag is set; an entry holding neither fails with the
corruption error; the collected records are reversed, so the redo executor,
whenever invoked, receives the base image (or no base image, without error,
when the oldest collected record has will_init set) and the records oldest
first -- stated as equality with the claim-side procedure
`getPageAtLsnClaim`, which is written directly from those words. -/
theorem get_page_at_lsn_refines_claim (s : SnapshotLayer) (walredo_mgr : RedoFn)
    (blknum lsn : Nat) :
    get_page_at_lsn s walredo_mgr blknum lsn
      = getPageAtLsnClaim s walredo_mgr blknum lsn :=
  get_page_eq_claimProcedure s walredo_mgr blknum lsn

/-- C2 (amended): when the backward scan finds no base image but collects at
least one WAL record and the oldest collected record does not self-initialize
(equivalently: the whole backward range is non-initializing records and is
nonempty), `get_page_at_lsn` fails hard with the "No base image found" error.
The warning-plus-zero-page fallback branch in the code is unreachable in this
situation. -/
theorem get_page_no_base_hard_error (s : SnapshotLayer) (walredo_mgr : RedoFn)
    (blknum lsn : Nat)
    (hne : (rangeSlice s.page_versions blknum lsn).reverse ≠ [])
    (hall : ((rangeSlice s.page_versions blknum lsn).reverse).dropWhile
      isPendingRecordEntry = []) :
    get_page_at_lsn s walredo_mgr blknum lsn = .error .noBaseImage := by
  rw [get_page_eq_claimProcedure]
  unfold getPageAtLsnClaim
  simp only [hall]
  have htw : (rangeSlice s.page_versions blknum lsn).reverse.takeWhile
      isPendingRecordEntry = (rangeSlice s.page_versions blknum lsn).reverse := by
    have hh := List.takeWhile_append_dropWhile (p := isPendingRecordEntry)
      (l := (rangeSlice s.page_versions blknum lsn).reverse)
    rw [hall, List.append_nil] at hh
    exact hh
  rw [htw]
  simp only [List.isEmpty_iff]
  rw [if_neg hne]

/-- C2 counterexample: the version history holds exactly one entry for block
0, a WAL record at LSN 10 with will_init = false; querying block 0 at LSN 20
finds no base image and one non-initializing record. The claim says this
returns a zero page with a warning; the code returns a hard error. -/
theorem get_page_no_base_counterexample :
    get_page_at_lsn
        ⟨⟨[]⟩, 1, ⟨1, 2, 3, 0⟩, 0, 100,
          [((0, 10), ⟨none, some ⟨false, [7]⟩⟩)], []⟩
        (fun _ _ _ _ _ => .ok []) 0 20
      = .error .noBaseImage
    ∧ get_page_at_lsn
        ⟨⟨[]⟩, 1, ⟨1, 2, 3, 0⟩, 0, 100,
          [((0, 10), ⟨none, some ⟨false, [7]⟩⟩)], []⟩
        (fun _ _ _ _ _ => .ok []) 0 20
      ≠ .ok ([.missingBaseImage], ZERO_PAGE) := by
  constructor
  · rfl
  · intro h
    rw [show get_page_at_lsn
        ⟨⟨[]⟩, 1, ⟨1, 2, 3, 0⟩, 0, 100,
          [((0, 10), ⟨none, some ⟨false, [7]⟩⟩)], []⟩
        (fun _ _ _ _ _ => .ok []) 0 20
      = .error .noBaseImage from rfl] at h
    exact Except.noConfusion h

/-- Witness for the amended C2 theorem at a concrete input. -/
theorem get_page_no_base_hard_error_witness :
    get_page_at_lsn
        ⟨⟨[]⟩, 2, ⟨9, 9, 9, 0⟩, 0, 50,
          [((3, 5), ⟨none, some ⟨false, [1]⟩⟩), ((3, 7), ⟨none, some ⟨false, [2]⟩⟩)], []⟩
        (fun _ _ _ _ _ => .ok []) 3 9
      = .error .noBaseImage :=
  get_page_no_base_hard_error _ _ 3 9 (by decide) (by decide)

/-- C8: a block with zero version-history entries at any LSN at or below the
query LSN yields the all-zero page of the fixed 8192-byte page size together
with the warning, not an error. -/
theorem get_page_never_written_zero (s : SnapshotLayer) (walredo_mgr : RedoFn)
    (blknum lsn : Nat) (h : rangeSlice s.page_versions blknum lsn = []) :
    get_page_at_lsn s walredo_mgr blknum lsn = .ok ([.pageNotFound], ZERO_PAGE)
    ∧ ZERO_PAGE = List.replicate 8192 0 := by
  constructor
  · unfold get_page_at_lsn
    rw [h]
    rfl
  · rfl

/-- Witness for C8: a history holding entries only for another block. -/
theorem get_page_never_written_zero_witness :
    get_page_at_lsn
        ⟨⟨[]⟩, 3, ⟨4, 4, 4, 0⟩, 0, 80,
          [((5, 50), ⟨some [1, 2], none⟩)], [(50, 1)]⟩
        (fun _ _ _ _ _ => .ok []) 0 60
      = .ok ([.pageNotFound], ZERO_PAGE)
    ∧ ZERO_PAGE = List.replicate 8192 0 :=
  get_page_never_written_zero _ _ 0 60 (by decide)

/-- C6: on a snapshot layer, `put_page_version` aborts the process
unconditionally, `put_truncation` and `freeze` return reported errors,
`is_frozen` reports true, and no mutating call changes the version history or
size history observed by subsequent reads. -/
theorem mutation_stubs_spec (s : SnapshotLayer) (blknum lsn : Nat)
    (pv : PageVersion) (lsn2 relsize end2 q : Nat) (walredo_mgr : RedoFn) :
    put_page_version s blknum lsn pv = (s, .aborted)
    ∧ put_truncation s lsn2 relsize = (s, .returned (.error .cannotModify))
    ∧ freeze s end2 = (s, .returned (.error .cannotFreeze))
    ∧ is_frozen s = true
    ∧ get_rel_size (put_truncation s lsn2 relsize).1 q = get_rel_size s q
    ∧ get_rel_exists (freeze s end2).1 q = get_rel_exists s q
    ∧ get_page_at_lsn (put_page_version s blknum lsn pv).1 walredo_mgr blknum q
        = get_page_at_lsn s walredo_mgr blknum q :=
  ⟨rfl, rfl, rfl, rfl, rfl, rfl, rfl⟩

/-- C10: `ZERO_PAGE` is the fixed buffer of exactly 8192 zero bytes; the
result of `get_page_at_lsn` does not depend on the caller-supplied
configuration; and every fallback result (a success carrying a warning)
returns exactly the `ZERO_PAGE` value. -/
theorem zero_page_fallback_fixed :
    ZERO_PAGE = List.replicate 8192 0
    ∧ (∀ (s : SnapshotLayer) (c : PageServerConf) (walredo_mgr : RedoFn)
        (blknum lsn : Nat),
        get_page_at_lsn { s with conf := c } walredo_mgr blknum lsn
          = get_page_at_lsn s walredo_mgr blknum lsn)
    ∧ (∀ (s : SnapshotLayer) (walredo_mgr : RedoFn) (blknum lsn : Nat)
        (w : List Warn) (img : List Nat),
        get_page_at_lsn s walredo_mgr blknum lsn = .ok (w, img) → w ≠ [] →
        img = ZERO_PAGE) := by
  refine ⟨rfl, fun s c wm b l => rfl, fun s wm b l w img h hw => ?_⟩
  rw [get_page_eq_claimProcedure] at h
  unfold getPageAtLsnClaim at h
  cases hdw : (rangeSlice s.page_versions b l).reverse.dropWhile
      isPendingRecordEntry with
  | nil =>
    simp only [hdw] at h
    split at h
    · cases h; rfl
    · exact absurd h (by simp)
  | cons e tl =>
    simp only [hdw] at h
    cases hpi : e.2.page_image with
    | some img0 =>
      simp only [hpi] at h
      split at h
      · cases h; exact absurd rfl hw
      · split at h
        · exact absurd h (by simp)
        · cases h; exact absurd rfl hw
    | none =>
      cases hrec : e.2.record with
      | some r =>
        simp only [hpi, hrec] at h
        split at h
        · exact absurd h (by simp)
        · cases h; exact absurd rfl hw
      | none =>
        simp only [hpi, hrec] at h
        exact absurd h (by simp)

/-- Witness for C10: the fallback hypothesis discharged at a concrete empty
history. -/
theorem zero_page_fallback_fixed_witness : ZERO_PAGE = ZERO_PAGE :=
  zero_page_fallback_fixed.2.2
    ⟨⟨[]⟩, 5, ⟨2, 2, 2, 0⟩, 0, 10, [], []⟩
    (fun _ _ _ _ _ => .ok []) 0 4 [.pageNotFound] ZERO_PAGE (by rfl) (by decide)

/-! ## Size-history lookup lemmas -/

lemma filter_le_nil (l : List (Nat × Nat)) (lsn : Nat)
    (h : ∀ e ∈ l, lsn < e.1) :
    l.filter (fun x => decide (x.1 ≤ lsn)) = [] := by
  rw [List.filter_eq_nil_iff]
  intro a ha
  simp only [decide_eq_true_eq]
  exact Nat.not_le.mpr (h a ha)

lemma filter_le_getLast (lsn : Nat) (e : Nat × Nat) :
    ∀ l : List (Nat × Nat), l.Pairwise (fun a b => a.1 < b.1) → e ∈ l →
      e.1 ≤ lsn → (∀ x ∈ l, x.1 ≤ lsn → x.1 ≤ e.1) →
      (l.filter (fun x => decide (x.1 ≤ lsn))).getLast? = some e := by
  intro l
  induction l with
  | nil => intro _ he _ _; cases he
  | cons a t ih =>
    intro hs he hle hmax
    rw [List.pairwise_cons] at hs
    obtain ⟨ha, ht⟩ := hs
    rcases List.mem_cons.mp he with rfl | het
    · have hft : t.filter (fun x => decide (x.1 ≤ lsn)) = [] := by
        rw [List.filter_eq_nil_iff]
        intro x hx
        simp only [decide_eq_true_eq]
        intro hxle
        exact absurd (hmax x (List.mem_cons_of_mem _ hx) hxle)
          (Nat.not_le.mpr (ha x hx))
      rw [List.filter_cons_of_pos (by simpa using hle), hft]
      rfl
    · have hae : e.1 ≤ lsn → a.1 ≤ lsn :=
        fun _ => le_trans (le_of_lt (ha e het)) hle
      rw [List.filter_cons_of_pos (by simpa using hae hle)]
      have ihr := ih ht het hle
        (fun x hx hxle => hmax x (List.mem_cons_of_mem _ hx) hxle)
      cases hft : t.filter (fun x => decide (x.1 ≤ lsn)) with
      | nil => rw [hft] at ihr; simp at ihr
      | cons y ys =>
        rw [hft] at ihr
        rw [List.getLast?_cons_cons]
        exact ihr

/-- C9: `get_rel_size` answers with the value of the size-history entry with
the greatest key at or below the query LSN and reports an error when none
exists; `get_rel_exists` does the same backward lookup, answers true exactly
when such an entry exists, and never returns an error. -/
theorem size_queries_spec (s : SnapshotLayer)
    (hs : s.relsizes.Pairwise (fun a b => a.1 < b.1)) (lsn : Nat) :
    ((∀ e ∈ s.relsizes, lsn < e.1) →
      get_rel_size s lsn = .error .noSizeKnown
        ∧ get_rel_exists s lsn = .ok false)
    ∧ (∀ e ∈ s.relsizes, e.1 ≤ lsn →
        (∀ x ∈ s.relsizes, x.1 ≤ lsn → x.1 ≤ e.1) →
        get_rel_size s lsn = .ok e.2 ∧ get_rel_exists s lsn = .ok true)
    ∧ (∃ b, get_rel_exists s lsn = .ok b) := by
  refine ⟨?_, ?_, ?_⟩
  · intro hnone
    have hf := filter_le_nil s.relsizes lsn hnone
    unfold get_rel_size get_rel_exists
    rw [hf]
    exact ⟨rfl, rfl⟩
  · intro e he hle hmax
    have hf := filter_le_getLast lsn e s.relsizes hs he hle hmax
    unfold get_rel_size get_rel_exists
    rw [hf]
    exact ⟨rfl, rfl⟩
  · unfold get_rel_exists
    exact ⟨_, rfl⟩

/-- Witness for C9, on the spec's own example: sizes 0 from LSN 5 and 3 from
LSN 15. -/
theorem size_queries_witness :
    (get_rel_size ⟨⟨[]⟩, 4, ⟨1, 1, 1, 0⟩, 0, 30, [], [(5, 0), (15, 3)]⟩ 20
        = .ok 3
      ∧ get_rel_exists ⟨⟨[]⟩, 4, ⟨1, 1, 1, 0⟩, 0, 30, [], [(5, 0), (15, 3)]⟩ 20
        = .ok true)
    ∧ (get_rel_size ⟨⟨[]⟩, 4, ⟨1, 1, 1, 0⟩, 0, 30, [], [(5, 0), (15, 3)]⟩ 3
        = .error .noSizeKnown
      ∧ get_rel_exists ⟨⟨[]⟩, 4, ⟨1, 1, 1, 0⟩, 0, 30, [], [(5, 0), (15, 3)]⟩ 3
        = .ok false)
    ∧ get_rel_exists ⟨⟨[]⟩, 4, ⟨1, 1, 1, 0⟩, 0, 30, [], [(5, 0), (15, 3)]⟩ 5
        = .ok true := by
  refine ⟨?_, ?_, ?_⟩
  · exact (size_queries_spec _ (by decide) 20).2.1 (15, 3) (by decide)
      (by decide) (by decide)
  · exact (size_queries_spec _ (by decide) 3).1 (by decide)
  · exact ((size_queries_spec _ (by decide) 5).2.1 (5, 0) (by decide)
      (by decide) (by decide)).2

/-! ## Serialization round-trip -/

lemma desBytes_serBytes (b rest : List Nat) :
    desBytes (serBytes b ++ rest) = some (b, rest) := by
  unfold serBytes desBytes
  simp only [List.cons_append]
  rw [if_pos (by simp)]
  rw [List.take_left, List.drop_left]

lemma desOpt_serOpt {α : Type} (f : α → List Nat)
    (g : List Nat → Option (α × List Nat))
    (hfg : ∀ x rest, g (f x ++ rest) = some (x, rest)) (o : Option α)
    (rest : List Nat) :
    desOpt g (serOpt f o ++ rest) = some (o, rest) := by
  cases o with
  | none => rfl
  | some x => simp [serOpt, desOpt, hfg]

lemma desRec_serRec (r : WALRecord) (rest : List Nat) :
    desRec (serRec r ++ rest) = some (r, rest) := by
  obtain ⟨wi, data⟩ := r
  cases wi <;> simp [serRec, desRec, desBytes_serBytes]

lemma desEntry_serEntry (e : (Nat × Nat) × PageVersion) (rest : List Nat) :
    desEntry (serEntry e ++ rest) = some (e, rest) := by
  unfold serEntry desEntry
  simp only [List.cons_append, List.append_assoc,
    desOpt_serOpt serBytes desBytes (fun x r => desBytes_serBytes x r),
    desOpt_serOpt serRec desRec (fun x r => desRec_serRec x r)]

lemma desEntries_flatMap (m : List ((Nat × Nat) × PageVersion))
    (rest : List Nat) :
    desEntries m.length (m.flatMap serEntry ++ rest) = some (m, rest) := by
  induction m with
  | nil => rfl
  | cons e t ih =>
    simp only [List.length_cons, List.flatMap_cons, List.append_assoc,
      desEntries, desEntry_serEntry, ih]

lemma desPVMap_serPVMap (m : List ((Nat × Nat) × PageVersion)) :
    desPVMap (serPVMap m) = some m := by
  unfold serPVMap desPVMap
  have hh := desEntries_flatMap m []
  rw [List.append_nil] at hh
  simp only [hh]

lemma desSizes_flatMap (m : List (Nat × Nat)) (rest : List Nat) :
    desSizes m.length (m.flatMap (fun e => [e.1, e.2]) ++ rest)
      = some (m, rest) := by
  induction m with
  | nil => rfl
  | cons e t ih =>
    simp only [List.length_cons, List.flatMap_cons, List.append_assoc,
      List.cons_append, List.nil_append, desSizes, ih]

lemma desRSMap_serRSMap (m : List (Nat × Nat)) :
    desRSMap (serRSMap m) = some m := by
  unfold serRSMap desRSMap
  have hh := desSizes_flatMap m []
  rw [List.append_nil] at hh
  simp only [hh]

/-! ## File-system lemmas -/

lemma fsRead_fsWrite_eq (fs : FS) (k : List Char) (v : List Nat) :
    fsRead (fsWrite fs k v) k = some v := by
  induction fs with
  | nil => simp [fsWrite, fsRead]
  | cons e rest ih =>
    by_cases hk : e.1 = k
    · simp [fsWrite, hk, fsRead]
    · simp [fsWrite, hk, fsRead, ih]

lemma fsRead_fsWrite_ne (fs : FS) (k k2 : List Char) (v : List Nat)
    (h : k ≠ k2) :
    fsRead (fsWrite fs k v) k2 = fsRead fs k2 := by
  induction fs with
  | nil => simp [fsWrite, fsRead, h]
  | cons e rest ih =>
    by_cases hk : e.1 = k
    · simp [fsWrite, hk, fsRead, h]
    · simp only [fsWrite]
      rw [if_neg hk]
      by_cases hk2 : e.1 = k2
      · simp [fsRead, hk2]
      · simp [fsRead, hk2, ih]

lemma relsizesName_ne (f : List Char) : relsizesName f ≠ f := by
  intro h
  have hlen := congrArg List.length h
  simp [relsizesName] at hlen

/-! ## Directory-scan characterization -/

lemma flsfLoop_cons (tag : RelTag) (lsn : Nat) (f : List Char)
    (rest : List (List Char)) (acc : Nat × Nat) :
    flsfLoop tag lsn (f :: rest) acc
      = match fname_to_tag f with
        | some (rt, sl, el) =>
          if rt = tag ∧ sl ≤ lsn ∧ acc.1 < sl then flsfLoop tag lsn rest (sl, el)
          else flsfLoop tag lsn rest acc
        | none => flsfLoop tag lsn rest acc := rfl

lemma flsfLoop_spec (tag : RelTag) (lsn : Nat) :
    ∀ (dir : List (List Char)) (acc : Nat × Nat),
      acc.1 ≤ (flsfLoop tag lsn dir acc).1
      ∧ (flsfLoop tag lsn dir acc = acc
          ∨ ∃ name ∈ dir,
              fname_to_tag name
                = some (tag, (flsfLoop tag lsn dir acc).1,
                    (flsfLoop tag lsn dir acc).2)
              ∧ (flsfLoop tag lsn dir acc).1 ≤ lsn
              ∧ acc.1 < (flsfLoop tag lsn dir acc).1)
      ∧ (∀ name ∈ dir, ∀ t sl el, fname_to_tag name = some (t, sl, el) →
          t = tag → sl ≤ lsn → sl ≤ (flsfLoop tag lsn dir acc).1) := by
  intro dir
  induction dir with
  | nil =>
    intro acc
    refine ⟨le_refl _, Or.inl rfl, ?_⟩
    intro name hname
    exact absurd hname (List.not_mem_nil name)
  | cons f rest ih =>
    intro acc
    cases hdec : fname_to_tag f with
    | none =>
      have hstep : flsfLoop tag lsn (f :: rest) acc = flsfLoop tag lsn rest acc := by
        rw [flsfLoop_cons, hdec]
      obtain ⟨ihle, ihres, ihmax⟩ := ih acc
      rw [hstep]
      refine ⟨ihle, ?_, ?_⟩
      · rcases ihres with h | ⟨name, hn, hrest⟩
        · exact Or.inl h
        · exact Or.inr ⟨name, List.mem_cons_of_mem _ hn, hrest⟩
      · intro name hname t sl el hd2 ht hsl
        rcases List.mem_cons.mp hname with rfl | hname2
        · rw [hdec] at hd2
          cases hd2
        · exact ihmax name hname2 t sl el hd2 ht hsl
    | some trip =>
      obtain ⟨rt, sl0, el0⟩ := trip
      by_cases hcond : rt = tag ∧ sl0 ≤ lsn ∧ acc.1 < sl0
      · have hstep : flsfLoop tag lsn (f :: rest) acc
            = flsfLoop tag lsn rest (sl0, el0) := by
          rw [flsfLoop_cons, hdec]
          simp only [if_pos hcond]
        obtain ⟨ihle, ihres, ihmax⟩ := ih (sl0, el0)
        rw [hstep]
        obtain ⟨hrt, hsl0, hacc⟩ := hcond
        subst hrt
        refine ⟨le_trans (le_of_lt hacc) ihle, ?_, ?_⟩
        · rcases ihres with h | ⟨name, hn, hd2, hle2, hlt2⟩
          · refine Or.inr ⟨f, List.mem_cons_self f rest, ?_⟩
            rw [h]
            exact ⟨hdec, hsl0, hacc⟩
          · exact Or.inr ⟨name, List.mem_cons_of_mem _ hn, hd2, hle2,
              lt_trans hacc hlt2⟩
        · intro name hname t sl el hd2 ht hsl
          rcases List.mem_cons.mp hname with rfl | h2
          · rw [hdec] at hd2
            simp only [Option.some.injEq, Prod.mk.injEq] at hd2
            obtain ⟨-, hb, -⟩ := hd2
            rw [← hb]
            exact ihle
          · exact ihmax name h2 t sl el hd2 ht hsl
      · have hstep : flsfLoop tag lsn (f :: rest) acc = flsfLoop tag lsn rest acc := by
          rw [flsfLoop_cons, hdec]
          simp only [if_neg hcond]
        obtain ⟨ihle, ihres, ihmax⟩ := ih acc
        rw [hstep]
        refine ⟨ihle, ?_, ?_⟩
        · rcases ihres with h | ⟨name, hn, hrest⟩
          · exact Or.inl h
          · exact Or.inr ⟨name, List.mem_cons_of_mem _ hn, hrest⟩
        · intro name hname t sl el hd2 ht hsl
          rcases List.mem_cons.mp hname with rfl | h2
          · rw [hdec] at hd2
            simp only [Option.some.injEq, Prod.mk.injEq] at hd2
            obtain ⟨ha, hb, -⟩ := hd2
            have hnlt : ¬ acc.1 < sl0 := by
              intro hlt
              exact hcond ⟨by rw [ha, ht], by rw [hb]; exact hsl, hlt⟩
            rw [← hb] at hsl ⊢
            exact le_trans (Nat.le_of_not_lt hnlt) ihle
          · exact ihmax name h2 t sl el hd2 ht hsl

/-- C3 (amended): `find_latest_snapshot_file` returns the `(start_lsn,
end_lsn)` of the qualifying unit (tag matches, `start_lsn ≤ lsn`) with the
largest start LSN, except that a unit with `start_lsn = 0` is never selected:
`Lsn(0)` doubles as the scanner's "nothing found" sentinel, so "not found" is
returned exactly when every qualifying unit has start LSN zero (in
particular when there is none). -/
theorem find_latest_spec (dir : List (List Char)) (tag : RelTag) (lsn : Nat) :
    (find_latest_snapshot_file dir tag lsn = none
      ↔ ∀ name ∈ dir, ∀ sl el, fname_to_tag name = some (tag, sl, el) →
          sl ≤ lsn → sl = 0)
    ∧ (∀ sl el, find_latest_snapshot_file dir tag lsn = some (sl, el) →
        0 < sl ∧ sl ≤ lsn
        ∧ (∃ name ∈ dir, fname_to_tag name = some (tag, sl, el))
        ∧ (∀ name ∈ dir, ∀ sl2 el2, fname_to_tag name = some (tag, sl2, el2) →
            sl2 ≤ lsn → sl2 ≤ sl)) := by
  obtain ⟨hle, hres, hmax⟩ := flsfLoop_spec tag lsn dir (0, 0)
  have heq : find_latest_snapshot_file dir tag lsn
      = (if (flsfLoop tag lsn dir (0, 0)).1 ≠ 0
          then some (flsfLoop tag lsn dir (0, 0)) else none) := rfl
  by_cases hz : (flsfLoop tag lsn dir (0, 0)).1 = 0
  · rw [heq, if_neg (by simpa using hz)]
    constructor
    · constructor
      · intro _ name hname sl el hdec hsl
        have hh := hmax name hname tag sl el hdec rfl hsl
        omega
      · intro _
        rfl
    · intro sl el hsome
      cases hsome
  · rw [heq, if_pos hz]
    constructor
    · constructor
      · intro hno
        cases hno
      · intro hall
        exfalso
        rcases hres with h | ⟨name, hn, hdec, hle2, hlt⟩
        · exact hz (by rw [h])
        · exact hz (hall name hn _ _ hdec hle2)
    · intro sl el hsome
      injection hsome with h
      rw [h] at hres hmax hz
      refine ⟨Nat.pos_of_ne_zero (by simpa using hz), ?_, ?_, ?_⟩
      · rcases hres with hcase | ⟨name, hn, hdec, hle2, hlt⟩
        · exact absurd (by rw [hcase]) hz
        · exact hle2
      · rcases hres with hcase | ⟨name, hn, hdec, hle2, hlt⟩
        · exact absurd (by rw [hcase]) hz
        · exact ⟨name, hn, hdec⟩
      · intro name hname sl2 el2 hdec2 hsl2
        exact hmax name hname tag sl2 el2 hdec2 rfl hsl2

/-- C3 counterexample: a directory holding exactly one unit for the tag,
with start LSN 0 (the beginning-of-time sentinel, hex
0000000000000000) and end LSN 5. The unit qualifies at query LSN 10 (its
tag matches and 0 <= 10), yet the scan reports "not found". -/
theorem find_latest_zero_counterexample :
    fname_to_tag ("7_8_9_1_0000000000000000_0000000000000005".toList)
        = some (⟨7, 8, 9, 1⟩, 0, 5)
    ∧ find_latest_snapshot_file
        ["7_8_9_1_0000000000000000_0000000000000005".toList] ⟨7, 8, 9, 1⟩ 10
      = none := by
  exact ⟨by decide, by decide⟩

/-- Witness for C3 on the spec's own example: units starting at LSNs 0, 100
(hex 64) and 200 (hex C8); querying at 150 (within [100, 200)) selects the
unit starting at 100. -/
theorem find_latest_spec_witness :
    0 < 100 ∧ 100 ≤ 150
    ∧ (∃ name ∈ ["1_1_1_0_0000000000000000_0000000000000064".toList,
        "1_1_1_0_0000000000000064_00000000000000C8".toList,
        "1_1_1_0_00000000000000C8_0000000000000190".toList],
        fname_to_tag name = some (⟨1, 1, 1, 0⟩, 100, 200))
    ∧ (∀ name ∈ ["1_1_1_0_0000000000000000_0000000000000064".toList,
        "1_1_1_0_0000000000000064_00000000000000C8".toList,
        "1_1_1_0_00000000000000C8_0000000000000190".toList],
        ∀ sl2 el2, fname_to_tag name = some (⟨1, 1, 1, 0⟩, sl2, el2) →
          sl2 ≤ 150 → sl2 ≤ 100) :=
  (find_latest_spec
    ["1_1_1_0_0000000000000000_0000000000000064".toList,
     "1_1_1_0_0000000000000064_00000000000000C8".toList,
     "1_1_1_0_00000000000000C8_0000000000000190".toList]
    ⟨1, 1, 1, 0⟩ 150).2 100 200 (by decide)

/-! ## Companion-file behaviour in scans -/

lemma flsfLoop_dup (t : RelTag) (q : Nat) (name name2 : List Char)
    (rest : List (List Char))
    (h : fname_to_tag name2 = fname_to_tag name) :
    ∀ acc, flsfLoop t q (name :: name2 :: rest) acc
      = flsfLoop t q (name :: rest) acc := by
  intro acc
  rw [flsfLoop_cons, flsfLoop_cons t q name rest]
  cases hdec : fname_to_tag name with
  | none =>
    rw [flsfLoop_cons, h, hdec]
  | some trip =>
    obtain ⟨rt, sl, el⟩ := trip
    by_cases hcond : rt = t ∧ sl ≤ q ∧ acc.1 < sl
    · simp only [if_pos hcond]
      rw [flsfLoop_cons, h, hdec]
      have hnc : ¬(rt = t ∧ sl ≤ q ∧ (sl, el).1 < sl) :=
        fun hc => absurd hc.2.2 (lt_irrefl sl)
      simp only [if_neg hnc]
    · simp only [if_neg hcond]
      rw [flsfLoop_cons, h, hdec]
      simp only [if_neg hcond]

lemma flsfLoop_dup_anywhere (t : RelTag) (q : Nat) (name name2 : List Char)
    (dir2 : List (List Char))
    (h : fname_to_tag name2 = fname_to_tag name) :
    ∀ (dir1 : List (List Char)) (acc : Nat × Nat),
      flsfLoop t q (dir1 ++ name :: name2 :: dir2) acc
        = flsfLoop t q (dir1 ++ name :: dir2) acc := by
  intro dir1
  induction dir1 with
  | nil => intro acc; exact flsfLoop_dup t q name name2 dir2 h acc
  | cons f d1 ih =>
    intro acc
    rw [List.cons_append, List.cons_append, flsfLoop_cons, flsfLoop_cons]
    cases hdec : fname_to_tag f with
    | none => exact ih acc
    | some trip =>
      obtain ⟨rt, sl, el⟩ := trip
      by_cases hcond : rt = t ∧ sl ≤ q ∧ acc.1 < sl
      · simp only [if_pos hcond]
        exact ih (sl, el)
      · simp only [if_neg hcond]
        exact ih acc

lemma list_rels_dup (dir : List (List Char)) (name name2 : List Char)
    (spc db : Nat) (h : fname_to_tag name2 = fname_to_tag name) :
    list_rels (name :: name2 :: dir) spc db = list_rels (name :: dir) spc db := by
  unfold list_rels
  simp only [List.foldl_cons]
  congr 1
  rw [h]
  cases hdec : fname_to_tag name with
  | none => rfl
  | some trip =>
    obtain ⟨rt, sl, el⟩ := trip
    by_cases hcond : (spc = 0 ∨ rt.spcnode = spc) ∧ (db = 0 ∨ rt.dbnode = db)
    · simp only [if_pos hcond]
      exact Finset.insert_idem rt ∅
    · simp only [if_neg hcond]

/-- C5 (amended): the size-history companion file names are *not* rejected by
the decoder -- the trailing "relsizes" field is simply never consumed, so a
companion name decodes to exactly the same `(tag, start, end)` triple as its
base unit name. A companion therefore never contributes a candidate distinct
from its unit: inserting it next to its unit changes neither the
`find_latest_snapshot_file` accumulation nor the `list_rels` set. -/
theorem companion_files_in_scans (tag : RelTag) (s e : Nat)
    (h1 : tag.spcnode < 4294967296) (h2 : tag.dbnode < 4294967296)
    (h3 : tag.relnode < 4294967296) (h4 : tag.forknum < 256)
    (h5 : s < 18446744073709551616) (h6 : e < 18446744073709551616) :
    fname_to_tag (relsizesName (snapFileName tag s e))
        = fname_to_tag (snapFileName tag s e)
    ∧ fname_to_tag (relsizesName (snapFileName tag s e)) = some (tag, s, e)
    ∧ (∀ (t : RelTag) (q : Nat) (dir1 dir2 : List (List Char))
        (acc : Nat × Nat),
        flsfLoop t q
            (dir1 ++ snapFileName tag s e
              :: relsizesName (snapFileName tag s e) :: dir2) acc
          = flsfLoop t q (dir1 ++ snapFileName tag s e :: dir2) acc)
    ∧ (∀ (dir : List (List Char)) (spc db : Nat),
        list_rels (snapFileName tag s e
            :: relsizesName (snapFileName tag s e) :: dir) spc db
          = list_rels (snapFileName tag s e :: dir) spc db) := by
  have hbase := fname_to_tag_snapFileName tag s e h1 h2 h3 h4 h5 h6
  have hcomp := fname_to_tag_relsizesName tag s e h1 h2 h3 h4 h5 h6
  have hsame : fname_to_tag (relsizesName (snapFileName tag s e))
      = fname_to_tag (snapFileName tag s e) := by rw [hbase, hcomp]
  refine ⟨hsame, hcomp, ?_, ?_⟩
  · intro t q dir1 dir2 acc
    exact flsfLoop_dup_anywhere t q _ _ dir2 hsame dir1 acc
  · intro dir spc db
    exact list_rels_dup dir _ _ spc db hsame

/-- C5 counterexample: a concrete companion file name (the base name with
"_relsizes" appended) does *not* decode to "not a unit": the decoder accepts
it, returning the same triple as the base name. -/
theorem companion_decodes_counterexample :
    fname_to_tag ("0_0_0_0_0000000000000005_0000000000000006_relsizes".toList)
        = some (⟨0, 0, 0, 0⟩, 5, 6)
    ∧ fname_to_tag ("0_0_0_0_0000000000000005_0000000000000006_relsizes".toList)
        ≠ none := by
  exact ⟨by decide, by decide⟩

/-- Witness for the amended C5 at a concrete unit identity. -/
theorem companion_files_in_scans_witness :
    fname_to_tag (relsizesName (snapFileName ⟨1, 2, 3, 4⟩ 7 8))
      = fname_to_tag (snapFileName ⟨1, 2, 3, 4⟩ 7 8) :=
  (companion_files_in_scans ⟨1, 2, 3, 4⟩ 7 8 (by decide) (by decide)
    (by decide) (by decide) (by decide) (by decide)).1

/-- C7 (amended): encoding a valid `(tag, start, end)` identity and decoding
it returns the identity unchanged; decoding is total (never a crash, `none`
for rejected strings), and a string with fewer than six underscore-separated
fields is always rejected -- but extra trailing fields beyond the sixth are
ignored rather than rejected, so some strings outside the canonical six-field
format still decode. -/
theorem fname_codec_roundtrip (tag : RelTag) (s e : Nat)
    (h1 : tag.spcnode < 4294967296) (h2 : tag.dbnode < 4294967296)
    (h3 : tag.relnode < 4294967296) (h4 : tag.forknum < 256)
    (h5 : s < 18446744073709551616) (h6 : e < 18446744073709551616) :
    fname_to_tag (snapFileName tag s e) = some (tag, s, e)
    ∧ (∀ f : List Char, (splitU f).length < 6 → fname_to_tag f = none) := by
  refine ⟨fname_to_tag_snapFileName tag s e h1 h2 h3 h4 h5 h6, ?_⟩
  intro f hlen
  unfold fname_to_tag
  rcases hsp : splitU f with _ | ⟨p1, _ | ⟨p2, _ | ⟨p3, _ | ⟨p4, _ | ⟨p5, l6⟩⟩⟩⟩⟩
  · rfl
  · rfl
  · rfl
  · rfl
  · rfl
  · rcases l6 with _ | ⟨p6, rest⟩
    · rfl
    · rw [hsp] at hlen
      simp at hlen
      omega

/-- C7 counterexample: a string with seven underscore-separated fields is not
a well-formed unit name (the format has exactly six), yet the decoder
accepts it, ignoring the seventh field. -/
theorem fname_codec_extra_field_counterexample :
    fname_to_tag ("1_2_3_4_0000000000000005_0000000000000006_x".toList)
        = some (⟨1, 2, 3, 4⟩, 5, 6)
    ∧ (splitU ("1_2_3_4_0000000000000005_0000000000000006_x".toList)).length
        ≠ 6 := by
  exact ⟨by decide, by decide⟩

/-- Witness for the amended C7 at a concrete identity. -/
theorem fname_codec_roundtrip_witness :
    fname_to_tag (snapFileName ⟨12, 34, 56, 2⟩ 9 10)
      = some (⟨12, 34, 56, 2⟩, 9, 10) :=
  (fname_codec_roundtrip ⟨12, 34, 56, 2⟩ 9 10 (by decide) (by decide)
    (by decide) (by decide) (by decide) (by decide)).1

lemma load_path_create (conf : PageServerConf) (timelineid : Nat)
    (tag : RelTag) (start_lsn end_lsn : Nat)
    (pv : List ((Nat × Nat) × PageVersion)) (rs : List (Nat × Nat)) (fs : FS) :
    load_path conf timelineid tag start_lsn end_lsn
        (create conf timelineid tag start_lsn end_lsn pv rs fs).2
      = .ok ⟨conf, timelineid, tag, start_lsn, end_lsn, pv, rs⟩ := by
  unfold create save load_path
  simp only [fsRead_fsWrite_ne _ _ _ _ (relsizesName_ne _), fsRead_fsWrite_eq,
    desPVMap_serPVMap, desRSMap_serRSMap]

lemma create_fs_eq (conf : PageServerConf) (timelineid : Nat) (tag : RelTag)
    (start_lsn end_lsn : Nat) (pv : List ((Nat × Nat) × PageVersion))
    (rs : List (Nat × Nat)) :
    (create conf timelineid tag start_lsn end_lsn pv rs []).2
      = [(snapFileName tag start_lsn end_lsn, serPVMap pv),
         (relsizesName (snapFileName tag start_lsn end_lsn), serRSMap rs)] := by
  have hpq : ¬ snapFileName tag start_lsn end_lsn
      = relsizesName (snapFileName tag start_lsn end_lsn) :=
    fun h => relsizesName_ne _ h.symm
  unfold create save
  simp [fsWrite, hpq]

/-- C4: creating a unit from a version history and a size history and loading
that identity back yields histories equal to the originals (same keys, same
variant tags, same payload bytes): first through `load_path` on the exact
identity over any starting directory, then through the full
`load`-via-directory-scan path from an empty directory. -/
theorem create_load_roundtrip (conf : PageServerConf) (timelineid : Nat)
    (tag : RelTag) (start_lsn end_lsn qlsn : Nat)
    (pv : List ((Nat × Nat) × PageVersion)) (rs : List (Nat × Nat))
    (h1 : tag.spcnode < 4294967296) (h2 : tag.dbnode < 4294967296)
    (h3 : tag.relnode < 4294967296) (h4 : tag.forknum < 256)
    (h5 : start_lsn < 18446744073709551616)
    (h6 : end_lsn < 18446744073709551616)
    (h7 : 0 < start_lsn) (hq : start_lsn ≤ qlsn) :
    (∀ fs : FS,
      load_path conf timelineid tag start_lsn end_lsn
          (create conf timelineid tag start_lsn end_lsn pv rs fs).2
        = .ok ⟨conf, timelineid, tag, start_lsn, end_lsn, pv, rs⟩)
    ∧ load conf timelineid tag qlsn
          (create conf timelineid tag start_lsn end_lsn pv rs []).2
        = .ok (some ⟨conf, timelineid, tag, start_lsn, end_lsn, pv, rs⟩) := by
  constructor
  · intro fs
    exact load_path_create conf timelineid tag start_lsn end_lsn pv rs fs
  · have hdp : fname_to_tag (snapFileName tag start_lsn end_lsn)
        = some (tag, start_lsn, end_lsn) :=
      fname_to_tag_snapFileName tag start_lsn end_lsn h1 h2 h3 h4 h5 h6
    have hdr : fname_to_tag (relsizesName (snapFileName tag start_lsn end_lsn))
        = some (tag, start_lsn, end_lsn) :=
      fname_to_tag_relsizesName tag start_lsn end_lsn h1 h2 h3 h4 h5 h6
    obtain ⟨hle, hres, hmax⟩ := flsfLoop_spec tag qlsn
      [snapFileName tag start_lsn end_lsn,
       relsizesName (snapFileName tag start_lsn end_lsn)] (0, 0)
    set R := flsfLoop tag qlsn
      [snapFileName tag start_lsn end_lsn,
       relsizesName (snapFileName tag start_lsn end_lsn)] (0, 0) with hR
    have hRr : R = (start_lsn, end_lsn) := by
      rcases hres with hcase | ⟨name, hn, hdec, hle2, hlt⟩
      · exfalso
        have hmx := hmax (snapFileName tag start_lsn end_lsn) (by simp) tag
          start_lsn end_lsn hdp rfl hq
        rw [hcase] at hmx
        simp at hmx
        omega
      · rcases List.mem_cons.mp hn with rfl | hn2
        · rw [hdp] at hdec
          simp only [Option.some.injEq, Prod.mk.injEq] at hdec
          obtain ⟨-, hs2, he2⟩ := hdec
          exact Prod.ext_iff.mpr ⟨hs2.symm, he2.symm⟩
        · rcases List.mem_cons.mp hn2 with rfl | hn3
          · rw [hdr] at hdec
            simp only [Option.some.injEq, Prod.mk.injEq] at hdec
            obtain ⟨-, hs2, he2⟩ := hdec
            exact Prod.ext_iff.mpr ⟨hs2.symm, he2.symm⟩
          · exact absurd hn3 (List.not_mem_nil name)
    have hfl : find_latest_snapshot_file
        [snapFileName tag start_lsn end_lsn,
         relsizesName (snapFileName tag start_lsn end_lsn)] tag qlsn
        = some (start_lsn, end_lsn) := by
      show (if R.1 ≠ 0 then some R else none) = some (start_lsn, end_lsn)
      rw [hRr]
      rw [if_pos (show (start_lsn, end_lsn).1 ≠ 0 from
        by simpa using Nat.pos_iff_ne_zero.mp h7)]
    unfold load
    rw [create_fs_eq]
    simp only [List.map_cons, List.map_nil]
    rw [hfl]
    have hlp := load_path_create conf timelineid tag start_lsn end_lsn pv rs []
    rw [create_fs_eq] at hlp
    simp only [hlp]

/-- Witness for C4 at a concrete unit. -/
theorem create_load_roundtrip_witness :
    load (⟨[]⟩ : PageServerConf) 11 ⟨7, 8, 9, 1⟩ 5
        (create (⟨[]⟩ : PageServerConf) 11 ⟨7, 8, 9, 1⟩ 5 6
          [((0, 5), ⟨some [1, 2, 3], none⟩)] [(5, 2)] []).2
      = .ok (some ⟨(⟨[]⟩ : PageServerConf), 11, ⟨7, 8, 9, 1⟩, 5, 6,
          [((0, 5), ⟨some [1, 2, 3], none⟩)], [(5, 2)]⟩) :=
  (create_load_roundtrip (⟨[]⟩ : PageServerConf) 11 ⟨7, 8, 9, 1⟩ 5 6 5
    [((0, 5), ⟨some [1, 2, 3], none⟩)] [(5, 2)]
    (by decide) (by decide) (by decide) (by decide) (by decide) (by decide)
    (by decide) (by decide)).2

end Zenith
